import Mathlib

/-!
Verification development for the `gitlab-contributions-exporter` pipeline
(`src/api.py`, `src/runner.py`, with `src/main.py` an earlier near-identical
draft of the same logic).  The Python code is shallowly embedded: dictionaries
become structures, raised exceptions become `Except String`, the remote GitLab
API and the cache files become explicit oracles passed to the functions that
consult them.  Machine-level concerns (actual git object storage, HTTP) are
out of scope; the value-level behaviour of every embedded function follows the
source line by line.
-/

namespace GitlabExport

/-! ### Python string comparison

`process_contributions` ends with `contributions.sort(key=lambda x: x["date"])`,
which compares the raw date *strings* with Python string `<`: lexicographic
order on Unicode code points.  `pyStrLt`/`pyStrLe` model that order on
`String.data` (the list of characters), comparing code points via `Char.toNat`.
-/

/-- Python string `<` on character lists: lexicographic by code point. -/
def pyStrLtAux : List Char → List Char → Bool
  | [], [] => false
  | [], _ :: _ => true
  | _ :: _, [] => false
  | a :: as, b :: bs =>
    if a.toNat < b.toNat then true
    else if b.toNat < a.toNat then false
    else pyStrLtAux as bs

/-- Python string `<`: lexicographic comparison of the code-point sequences. -/
def pyStrLt (a b : String) : Bool := pyStrLtAux a.data b.data

/-- Python string `<=` (total order: `a <= b` iff not `b < a`). -/
def pyStrLe (a b : String) : Bool := !(pyStrLt b a)

theorem pyStrLtAux_irrefl : ∀ x : List Char, pyStrLtAux x x = false
  | [] => rfl
  | a :: as => by simp [pyStrLtAux, pyStrLtAux_irrefl as]

theorem pyStrLtAux_asymm : ∀ x y : List Char,
    pyStrLtAux x y = true → pyStrLtAux y x = false
  | [], [] => by simp [pyStrLtAux]
  | [], _ :: _ => by simp [pyStrLtAux]
  | _ :: _, [] => by simp [pyStrLtAux]
  | a :: as, b :: bs => by
    by_cases h1 : a.toNat < b.toNat
    · have h2 : ¬ b.toNat < a.toNat := by omega
      simp [pyStrLtAux, h1, h2]
    · by_cases h2 : b.toNat < a.toNat
      · simp [pyStrLtAux, h1, h2]
      · simp only [pyStrLtAux, if_neg h1, if_neg h2]
        exact pyStrLtAux_asymm as bs

theorem pyStrLtAux_trans : ∀ x y z : List Char,
    pyStrLtAux x y = true → pyStrLtAux y z = true → pyStrLtAux x z = true
  | [], [], _ => by simp [pyStrLtAux]
  | [], _ :: _, [] => by simp [pyStrLtAux]
  | [], _ :: _, _ :: _ => by simp [pyStrLtAux]
  | _ :: _, [], _ => by simp [pyStrLtAux]
  | _ :: _, _ :: _, [] => by simp [pyStrLtAux]
  | a :: as, b :: bs, c :: cs => by
    intro h1 h2
    by_cases hab : a.toNat < b.toNat
    · by_cases hbc : b.toNat < c.toNat
      · simp [pyStrLtAux, show a.toNat < c.toNat by omega]
      · by_cases hcb : c.toNat < b.toNat
        · simp [pyStrLtAux, hbc, hcb] at h2
        · simp [pyStrLtAux, show a.toNat < c.toNat by omega]
    · by_cases hba : b.toNat < a.toNat
      · simp [pyStrLtAux, hab, hba] at h1
      · by_cases hbc : b.toNat < c.toNat
        · simp [pyStrLtAux, show a.toNat < c.toNat by omega]
        · by_cases hcb : c.toNat < b.toNat
          · simp [pyStrLtAux, hbc, hcb] at h2
          · simp only [pyStrLtAux, if_neg hab, if_neg hba] at h1
            simp only [pyStrLtAux, if_neg hbc, if_neg hcb] at h2
            simp only [pyStrLtAux, if_neg (show ¬ a.toNat < c.toNat by omega),
              if_neg (show ¬ c.toNat < a.toNat by omega)]
            exact pyStrLtAux_trans as bs cs h1 h2

/-- Connectedness needed for `pyStrLe` transitivity:
if `x < z` then `x < y` or `y < z`. -/
theorem pyStrLtAux_connex : ∀ x y z : List Char,
    pyStrLtAux x z = true → pyStrLtAux x y = true ∨ pyStrLtAux y z = true
  | [], _, [] => by simp [pyStrLtAux]
  | _ :: _, _, [] => by simp [pyStrLtAux]
  | [], [], _ :: _ => by simp [pyStrLtAux]
  | [], _ :: _, _ :: _ => by simp [pyStrLtAux]
  | x :: xs, [], z :: zs => by simp [pyStrLtAux]
  | x :: xs, y :: ys, z :: zs => by
    intro h
    by_cases hxy : x.toNat < y.toNat
    · left; simp [pyStrLtAux, hxy]
    · by_cases hyz : y.toNat < z.toNat
      · right; simp [pyStrLtAux, hyz]
      · by_cases hxz : x.toNat < z.toNat
        · omega
        · by_cases hzx : z.toNat < x.toNat
          · simp [pyStrLtAux, hxz, hzx] at h
          · simp only [pyStrLtAux, if_neg hxz, if_neg hzx] at h
            rcases pyStrLtAux_connex xs ys zs h with h1 | h1
            · left
              simp only [pyStrLtAux, if_neg hxy,
                if_neg (show ¬ y.toNat < x.toNat by omega)]
              exact h1
            · right
              simp only [pyStrLtAux, if_neg hyz,
                if_neg (show ¬ z.toNat < y.toNat by omega)]
              exact h1

theorem pyStrLe_refl (a : String) : pyStrLe a a = true := by
  simp [pyStrLe, pyStrLt, pyStrLtAux_irrefl]

theorem pyStrLe_total (a b : String) : pyStrLe a b = true ∨ pyStrLe b a = true := by
  unfold pyStrLe pyStrLt
  by_cases h : pyStrLtAux b.data a.data = true
  · right
    simp [pyStrLtAux_asymm _ _ h]
  · left
    simp [Bool.not_eq_true] at h
    simp [h]

theorem pyStrLe_trans {a b c : String} (h1 : pyStrLe a b = true)
    (h2 : pyStrLe b c = true) : pyStrLe a c = true := by
  unfold pyStrLe pyStrLt at *
  simp only [Bool.not_eq_true'] at h1 h2 ⊢
  by_cases h : pyStrLtAux c.data a.data = true
  · rcases pyStrLtAux_connex _ b.data _ h with h3 | h3
    · rw [h3] at h2; cases h2
    · rw [h3] at h1; cases h1
  · simpa using h

/-! ### Timestamps

`dateutil.parser.parse` turns the ISO-8601 strings GitLab serves into
timezone-aware datetimes; comparing two aware datetimes compares the instants
they denote.  `parseISO` models this for the shapes that occur here:
`YYYY-MM-DDTHH:MM:SS` followed by `Z` or a `+HH:MM`/`-HH:MM` offset, mapped to
seconds since the Unix epoch (UTC).  Strings outside this fragment parse to
`none` (the embedded functions treat that as `dateutil` raising).
-/

/-- Gregorian leap-year rule. -/
def isLeapYear (y : Nat) : Bool := y % 4 == 0 && (y % 100 != 0 || y % 400 == 0)

/-- Days in month `m` (1-12) of year `y`. -/
def daysInMonth (y m : Nat) : Nat :=
  if m = 2 then (if isLeapYear y then 29 else 28)
  else if m = 4 ∨ m = 6 ∨ m = 9 ∨ m = 11 then 30
  else 31

/-- Days from 1970-01-01 to the civil date `y-m-d` (valid dates, `y ≥ 1970`). -/
def daysSinceEpoch (y m d : Nat) : Nat :=
  ((List.range (y - 1970)).foldl (fun acc i => acc + (if isLeapYear (1970 + i) then 366 else 365)) 0)
  + ((List.range (m - 1)).foldl (fun acc i => acc + daysInMonth y (i + 1)) 0)
  + (d - 1)

/-- The decimal value of a digit character, if it is one. -/
def digitVal (c : Char) : Option Nat :=
  if c.isDigit then some (c.toNat - 48) else none

/-- Two-digit decimal number. -/
def digits2 (a b : Char) : Option Nat := do
  let x ← digitVal a
  let y ← digitVal b
  pure (x * 10 + y)

/-- Four-digit decimal number. -/
def digits4 (a b c d : Char) : Option Nat := do
  let x ← digits2 a b
  let y ← digits2 c d
  pure (x * 100 + y)

/-- The UTC offset suffix, in minutes: `Z`, `+HH:MM` or `-HH:MM`. -/
def parseOffset : List Char → Option Int
  | ['Z'] => some 0
  | [sgn, h1, h2, ':', m1, m2] => do
    let h ← digits2 h1 h2
    let m ← digits2 m1 m2
    let mins : Int := (h * 60 + m : Nat)
    if sgn = '+' then some mins
    else if sgn = '-' then some (-mins)
    else none
  | _ => none

/-- Seconds since the Unix epoch denoted by an ISO-8601 string with offset. -/
def parseISO (s : String) : Option Int :=
  match s.data with
  | y1 :: y2 :: y3 :: y4 :: '-' :: m1 :: m2 :: '-' :: d1 :: d2 :: 'T' ::
    h1 :: h2 :: ':' :: n1 :: n2 :: ':' :: s1 :: s2 :: rest => do
    let y ← digits4 y1 y2 y3 y4
    let mo ← digits2 m1 m2
    let d ← digits2 d1 d2
    let h ← digits2 h1 h2
    let n ← digits2 n1 n2
    let sec ← digits2 s1 s2
    let off ← parseOffset rest
    if 1970 ≤ y ∧ 1 ≤ mo ∧ mo ≤ 12 ∧ 1 ≤ d ∧ d ≤ daysInMonth y mo ∧
       h ≤ 23 ∧ n ≤ 59 ∧ sec ≤ 59 then
      some (((daysSinceEpoch y mo d * 86400 + h * 3600 + n * 60 + sec : Nat) : Int) - off * 60)
    else none
  | _ => none

/-- Non-decreasing comparison of two date strings as instants; `false` when
either fails to parse. -/
def tsLeB (a b : String) : Bool :=
  match parseISO a, parseISO b with
  | some x, some y => decide (x ≤ y)
  | _, _ => false

example : parseISO "1970-01-01T00:00:00Z" = some 0 := by decide
example : parseISO "1970-01-02T00:00:00+01:00" = some 82800 := by decide
example : pyStrLt "2024-06-15T09:00:00Z" "2024-06-15T10:00:00+05:00" = true := by decide

/-! ### Data model (`src/custom_types.py`)

The `TypedDict` declarations are unenforced annotations: at runtime
`GitlabEvent(**event)` etc. build plain dicts holding every attribute the API
returned.  The structures below carry the fields the pipeline reads, plus the
fork-related project attributes (`forked_from_project`, `path_with_namespace`)
that GitLab serves and that therefore travel through the dicts even though no
code reads them.  The `instance` field is written by `run()` right after each
fetch and is present on every cached record (caches are written post-tagging),
so it is modelled as always present. -/

structure GitlabEvent where
  id : Nat
  project_id : Nat
  action_name : String
  target_type : String
  created_at : String
  «instance» : String
  deriving DecidableEq, Repr

structure GitlabProject where
  id : Nat
  created_at : String
  «instance» : String
  forked_from_project : Bool
  path_with_namespace : String
  deriving DecidableEq, Repr

structure GitlabCommit where
  id : String
  project_id : Nat
  committed_date : String
  «instance» : String
  deriving DecidableEq, Repr

structure GitlabContribution where
  contribution_type : String
  message : String
  project_id : Nat
  date : String
  «instance» : String
  deriving DecidableEq, Repr

/-- The nested `GitlabCounts` dict, flattened into one structure. -/
structure GitlabCounts where
  projects_created : Nat
  merge_requests_opened : Nat
  merge_requests_accepted : Nat
  issues_opened : Nat
  commits : Nat
  deriving DecidableEq, Repr

/-- The zeroed counter dict built in `GitlabContributionProcessor.__init__`. -/
def zeroCounts : GitlabCounts :=
  { projects_created := 0, merge_requests_opened := 0,
    merge_requests_accepted := 0, issues_opened := 0, commits := 0 }

/-- `GitlabContributionProcessor._get_total_counts`: the sum of every counter,
nested dicts flattened. -/
def _get_total_counts (c : GitlabCounts) : Nat :=
  c.projects_created + (c.merge_requests_opened + c.merge_requests_accepted)
    + c.issues_opened + c.commits

/-! ### The remote API (`src/api.py`)

`GitlabAPIWrapper` holds a connection to one instance.  What the remote
returns is modelled as oracles: a fixed event list, a fixed project list, and
a commit oracle keyed by exactly the data `_get_commits` sends it,
`(project_id, project_created_at)` (the author email is fixed per API).  A
remote failure of the commit-listing call is `Except.error`, standing for
`gitlab.exceptions.GitlabError`. -/

structure APIModel where
  «instance» : String
  eventsRemote : List GitlabEvent
  projectsRemote : List GitlabProject
  commitsRemote : Nat → String → Except String (List GitlabCommit)

/-- The list comprehension inside `_get_commits`: keep a commit iff
`dp.parse(commit.committed_date) > dp.parse(project_created_at)`.  A date
outside the parseable fragment is a raised `dateutil` error, which the
`except gitlab.exceptions.GitlabError` clause does not catch. -/
def filterCommitsByDate (project_created_at : String) :
    List GitlabCommit → Except String (List GitlabCommit)
  | [] => .ok []
  | c :: rest =>
    match parseISO c.committed_date, parseISO project_created_at with
    | some tc, some tp =>
      match filterCommitsByDate project_created_at rest with
      | .error msg => .error msg
      | .ok r => .ok (if tp < tc then c :: r else r)
    | _, _ => .error "dateutil.parser.ParserError"

/-- `GitlabAPIWrapper._get_commits`: list the project commits by the author;
on a `GitlabError` print and return the empty list; otherwise drop commits
dated at or before project creation. -/
def _get_commits (a : APIModel) (project_id : Nat) (project_created_at : String) :
    Except String (List GitlabCommit) :=
  match a.commitsRemote project_id project_created_at with
  | .error _ => .ok []
  | .ok commits => filterCommitsByDate project_created_at commits

/-- `GitlabAPIWrapper.get_projects`: the remote's member-project list is
returned unchanged — the source applies no fork or path filtering. -/
def get_projects (a : APIModel) : List GitlabProject := a.projectsRemote

/-- The `for project in projects` accumulation loop of
`get_user_commits_for_projects`. -/
def getUserCommitsAux (a : APIModel) :
    List GitlabProject → List GitlabCommit → Except String (List GitlabCommit)
  | [], acc => .ok acc
  | p :: rest, acc =>
    match _get_commits a p.id p.created_at with
    | .error msg => .error msg
    | .ok cs => getUserCommitsAux a rest (acc ++ cs)

/-- `GitlabAPIWrapper.get_user_commits_for_projects`: `commits = []`, then
`commits += self._get_commits(project["id"], project["created_at"])` for each
project in order. -/
def get_user_commits_for_projects (a : APIModel) (projects : List GitlabProject) :
    Except String (List GitlabCommit) :=
  getUserCommitsAux a projects []

/-! ### Normalization (`GitlabContributionProcessor.process_contributions`) -/

/-- The body of the event loop: one event is mapped through the
`action_name`/`target_type` table, incrementing the matching counter, or
raises (`Unknown target type` / `Unknown action name`). -/
def stepEvent (counts : GitlabCounts) (e : GitlabEvent) :
    Except String (GitlabContribution × GitlabCounts) :=
  if e.action_name = "created" then
    .ok ({ contribution_type := "project", message := "Created project",
           project_id := e.project_id, date := e.created_at,
           «instance» := e.«instance» },
         { counts with projects_created := counts.projects_created + 1 })
  else if e.action_name = "opened" then
    if e.target_type = "MergeRequest" then
      .ok ({ contribution_type := "merge_request", message := "Opened merge request",
             project_id := e.project_id, date := e.created_at,
             «instance» := e.«instance» },
           { counts with merge_requests_opened := counts.merge_requests_opened + 1 })
    else if e.target_type = "Issue" then
      .ok ({ contribution_type := "issue", message := "Opened issue",
             project_id := e.project_id, date := e.created_at,
             «instance» := e.«instance» },
           { counts with issues_opened := counts.issues_opened + 1 })
    else .error ("Unknown target type: " ++ e.target_type)
  else if e.action_name = "accepted" then
    .ok ({ contribution_type := "merge_request", message := "Accepted merge request",
           project_id := e.project_id, date := e.created_at,
           «instance» := e.«instance» },
         { counts with merge_requests_accepted := counts.merge_requests_accepted + 1 })
  else .error ("Unknown action name: " ++ e.action_name)

/-- The `for event in self.events` loop: contributions in event order, counts
threaded through; the first unmapped event raises. -/
def normalizeEvents (counts : GitlabCounts) :
    List GitlabEvent → Except String (List GitlabContribution × GitlabCounts)
  | [] => .ok ([], counts)
  | e :: rest =>
    match stepEvent counts e with
    | .error msg => .error msg
    | .ok (c, counts1) =>
      match normalizeEvents counts1 rest with
      | .error msg => .error msg
      | .ok (cs, counts2) => .ok (c :: cs, counts2)

/-- The `for commit in self.commits` loop: every commit becomes one
contribution and bumps the `commits` counter. -/
def normalizeCommits (counts : GitlabCounts) :
    List GitlabCommit → List GitlabContribution × GitlabCounts
  | [] => ([], counts)
  | cm :: rest =>
    let (cs, counts1) :=
      normalizeCommits { counts with commits := counts.commits + 1 } rest
    ({ contribution_type := "commit", message := "Committed to project",
       project_id := cm.project_id, date := cm.committed_date,
       «instance» := cm.«instance» } :: cs, counts1)

/-- The comparison `contributions.sort(key=lambda x: x["date"])` sorts by:
Python string `<=` on the raw `date` field. -/
def contribLE (a b : GitlabContribution) : Prop := pyStrLe a.date b.date = true

instance : DecidableRel contribLE := fun _a _b => instDecidableEqBool _ _

/-- `GitlabContributionProcessor.process_contributions`: normalize events then
commits (events first, commits appended after), then
`contributions.sort(key=lambda x: x["date"])`.  Python's `list.sort` is a
stable ascending sort; stable sorting by a fixed key is a unique function of
the input, modelled here by `List.insertionSort` over `contribLE`. -/
def process_contributions (counts : GitlabCounts) (events : List GitlabEvent)
    (commits : List GitlabCommit) :
    Except String (List GitlabContribution × GitlabCounts) :=
  match normalizeEvents counts events with
  | .error msg => .error msg
  | .ok (ecs, counts1) =>
    let (ccs, counts2) := normalizeCommits counts1 commits
    .ok (List.insertionSort contribLE (ecs ++ ccs), counts2)

/-! ### Replay (`create_repo`, `create_commit`,
`create_commits_from_contributions`)

A repository is its staged index (never written to by this program) and its
commit list.  `Repo.index.commit(message=..., author_date=...)` records the
staged changes (none), the message, the parsed contribution date as the
*author* date, and — because the `commit_date` keyword is not passed — the
wall clock of the replay (`now` below) as the committer date. -/

structure CommitRecord where
  message : String
  author_date : Int
  commit_date : Int
  changes : List String
  deriving DecidableEq, Repr

structure RepoModel where
  staged : List String
  commits : List CommitRecord
  deriving DecidableEq, Repr

/-- `create_repo`: any existing repository at the path is deleted and a fresh
empty one is initialized. -/
def create_repo : RepoModel := { staged := [], commits := [] }

/-- The f-string commit message of `create_commit`. -/
def mkCommitMessage (c : GitlabContribution) : String :=
  c.message ++ "\n\nDate: " ++ c.date ++ "\n(Project ID: " ++
    toString c.project_id ++ ", Instance: " ++ c.«instance» ++ ")"

/-- `create_commit`: raise if there is no repository; otherwise parse the
contribution date and append one commit with `author_date` the parsed date and
the committer date left to the wall clock `now`. -/
def create_commit (repo : Option RepoModel) (now : Int) (c : GitlabContribution) :
    Except String RepoModel :=  match repo with
  | none => .error "No repository found"
  | some r =>
    match parseISO c.date with
    | none => .error "dateutil.parser.ParserError"
    | some t =>
      .ok { r with commits := r.commits ++
              [{ message := mkCommitMessage c, author_date := t,
                 commit_date := now, changes := r.staged }] }

/-- `create_commits_from_contributions`: one `create_commit` per contribution,
in list order. -/
def create_commits_from_contributions (repo : Option RepoModel) (now : Int) :
    List GitlabContribution → Except String (Option RepoModel)
  | [] => .ok repo
  | c :: rest =>
    match create_commit repo now c with
    | .error msg => .error msg
    | .ok r => create_commits_from_contributions (some r) now rest

/-! ### Cache files and `run()` (`check_for_existing_exports`, `run`)

A cache file (`db/EXPORT_<kind>.json`) is absent, unreadable/malformed
(`json.load` raises), or holds a stored record list.  `run()` works on a
freshly constructed processor: empty record lists, zeroed counts, no
repository. -/

inductive CacheFile (α : Type) where
  | absent
  | corrupt
  | stored (data : List α)
  deriving DecidableEq

structure CacheFS where
  events : CacheFile GitlabEvent
  projects : CacheFile GitlabProject
  commits : CacheFile GitlabCommit
  deriving DecidableEq

/-- One `if os.path.exists(...): json.load(...)` block: an absent file leaves
the attribute as it was, a stored file replaces it, a malformed file raises
`json.decoder.JSONDecodeError` — there is no try/except around the load. -/
def loadCacheFile {α : Type} : CacheFile α → List α → Except String (List α)
  | .absent, cur => .ok cur
  | .corrupt, _ => .error "json.decoder.JSONDecodeError"
  | .stored d, _ => .ok d

structure RunState where
  events : List GitlabEvent
  projects : List GitlabProject
  commits : List GitlabCommit
  contributions : List GitlabContribution
  counts : GitlabCounts
  repo : Option RepoModel

/-- The processor state `__init__` builds. -/
def initState : RunState :=
  { events := [], projects := [], commits := [], contributions := [],
    counts := zeroCounts, repo := none }

/-- `check_for_existing_exports`: the three cache kinds are probed in order
events, projects, commits; the first malformed file aborts. -/
def check_for_existing_exports (fs : CacheFS) (st : RunState) :
    Except String RunState :=
  match loadCacheFile fs.events st.events with
  | .error msg => .error msg
  | .ok evs =>
    match loadCacheFile fs.projects st.projects with
    | .error msg => .error msg
    | .ok pjs =>
      match loadCacheFile fs.commits st.commits with
      | .error msg => .error msg
      | .ok cms => .ok { st with events := evs, projects := pjs, commits := cms }

/-- `event["instance"] = api.instance` over a fetched batch. -/
def tagEvents (a : APIModel) (es : List GitlabEvent) : List GitlabEvent :=
  es.map fun e => { e with «instance» := a.«instance» }

/-- `project["instance"] = api.instance` over a fetched batch. -/
def tagProjects (a : APIModel) (ps : List GitlabProject) : List GitlabProject :=
  ps.map fun p => { p with «instance» := a.«instance» }

/-- `commit["instance"] = api.instance` over a fetched batch. -/
def tagCommits (a : APIModel) (cs : List GitlabCommit) : List GitlabCommit :=
  cs.map fun c => { c with «instance» := a.«instance» }

/-- The `if not self.events:` block of `run()`: a falsy (empty) list triggers
the per-instance fetch, tagged and concatenated in configured API order; a
non-empty list (from cache) suppresses it.  The `export_dicts_to_file`
write-back only touches the cache directory and is elided here. -/
def fetchEventsStage (apis : List APIModel) (cur : List GitlabEvent) :
    List GitlabEvent :=
  if cur.isEmpty then (apis.map fun a => tagEvents a a.eventsRemote).flatten else cur

/-- The `if not self.projects:` block of `run()`. -/
def fetchProjectsStage (apis : List APIModel) (cur : List GitlabProject) :
    List GitlabProject :=
  if cur.isEmpty then (apis.map fun a => tagProjects a (get_projects a)).flatten
  else cur

/-- The `for api in self.apis` accumulation loop of the commit-fetch block of
`run()`: per API, commits are fetched for that instance's already-known
projects only, tagged, and concatenated. -/
def fetchCommitsAux (projects : List GitlabProject) :
    List APIModel → List GitlabCommit → Except String (List GitlabCommit)
  | [], acc => .ok acc
  | a :: rest, acc =>
    match get_user_commits_for_projects a
        (projects.filter fun p => p.«instance» == a.«instance») with
    | .error msg => .error msg
    | .ok cs => fetchCommitsAux projects rest (acc ++ tagCommits a cs)

/-- The `if not self.commits:` block of `run()`: an empty list triggers the
per-API commit fetch, a non-empty (cached) list suppresses it. -/
def fetchCommitsStage (apis : List APIModel) (projects : List GitlabProject)
    (cur : List GitlabCommit) : Except String (List GitlabCommit) :=
  if cur.isEmpty then fetchCommitsAux projects apis [] else .ok cur

/-- `GitlabContributionProcessor.run()` on a fresh processor: cache check,
conditional fetches, normalization + sort, then replay into a fresh
repository.  `now` is the wall clock during the replay
(`establish_connection`/`authenticate` have no value-level effect here). -/
def run (fs : CacheFS) (apis : List APIModel) (now : Int) :
    Except String RunState :=
  match check_for_existing_exports fs initState with
  | .error msg => .error msg
  | .ok st =>
    let events := fetchEventsStage apis st.events
    let projects := fetchProjectsStage apis st.projects
    match fetchCommitsStage apis projects st.commits with
    | .error msg => .error msg
    | .ok commits =>
      match process_contributions st.counts events commits with
      | .error msg => .error msg
      | .ok (contribs, counts) =>
        match create_commits_from_contributions (some create_repo) now contribs with
        | .error msg => .error msg
        | .ok repo =>
          .ok { events := events, projects := projects, commits := commits,
                contributions := contribs, counts := counts, repo := repo }

/-! ### Derived views of the embedded code, used by several claims -/

/-- The contribution one event maps to, separated from the counter updates
(the loop body's appended dict). -/
def eventContribution (e : GitlabEvent) : Except String GitlabContribution :=
  (stepEvent zeroCounts e).map Prod.fst

/-- The contribution one commit maps to (the commit loop body's dict). -/
def commitContribution (cm : GitlabCommit) : GitlabContribution :=
  { contribution_type := "commit", message := "Committed to project",
    project_id := cm.project_id, date := cm.committed_date,
    «instance» := cm.«instance» }

/-- The contribution list of `process_contributions` as it stands right
before the final sort: all events (in order) before all commits (in order). -/
def premerge (events : List GitlabEvent) (commits : List GitlabCommit) :
    Except String (List GitlabContribution) := do
  let ecs ← events.mapM eventContribution
  pure (ecs ++ commits.map commitContribution)

theorem stepEvent_fst (counts counts' : GitlabCounts) (e : GitlabEvent) :
    (stepEvent counts e).map Prod.fst = (stepEvent counts' e).map Prod.fst := by
  unfold stepEvent
  split_ifs <;> rfl

theorem normalizeEvents_ok_contribs (events : List GitlabEvent) :
    ∀ (counts counts2 : GitlabCounts) (cs : List GitlabContribution),
    normalizeEvents counts events = .ok (cs, counts2) →
    events.mapM eventContribution = .ok cs := by
  induction events with
  | nil =>
    intro counts counts2 cs h
    cases h
    rfl
  | cons e rest ih =>
    intro counts counts2 cs h
    cases hse : stepEvent counts e with
    | error msg => simp only [normalizeEvents, hse] at h; cases h
    | ok v =>
      obtain ⟨c0, counts1⟩ := v
      cases hre : normalizeEvents counts1 rest with
      | error msg => simp only [normalizeEvents, hse, hre] at h; cases h
      | ok w =>
        obtain ⟨cs1, countsF⟩ := w
        simp only [normalizeEvents, hse, hre, Except.ok.injEq,
          Prod.mk.injEq] at h
        obtain ⟨h1, _⟩ := h
        have hec : eventContribution e = .ok c0 := by
          unfold eventContribution
          rw [stepEvent_fst zeroCounts counts e, hse]
          rfl
        have hrest := ih counts1 countsF cs1 hre
        simp only [List.mapM_cons, hec, hrest, bind, Except.bind, pure,
          Except.pure]
        rw [← h1]

theorem normalizeEvents_total (events : List GitlabEvent) :
    ∀ (counts counts2 : GitlabCounts) (cs : List GitlabContribution),
    normalizeEvents counts events = .ok (cs, counts2) →
    _get_total_counts counts2 = _get_total_counts counts + cs.length := by
  induction events with
  | nil =>
    intro counts counts2 cs h
    cases h
    simp
  | cons e rest ih =>
    intro counts counts2 cs h
    cases hse : stepEvent counts e with
    | error msg => simp only [normalizeEvents, hse] at h; cases h
    | ok v =>
      obtain ⟨c0, counts1⟩ := v
      cases hre : normalizeEvents counts1 rest with
      | error msg => simp only [normalizeEvents, hse, hre] at h; cases h
      | ok w =>
        obtain ⟨cs1, countsF⟩ := w
        simp only [normalizeEvents, hse, hre, Except.ok.injEq,
          Prod.mk.injEq] at h
        obtain ⟨h1, h2⟩ := h
        have hstep : _get_total_counts counts1 = _get_total_counts counts + 1 := by
          unfold stepEvent at hse
          split_ifs at hse <;> cases hse <;>
            simp [_get_total_counts] <;> omega
        have := ih counts1 countsF cs1 hre
        subst h2
        rw [← h1]
        simp only [List.length_cons]
        omega

theorem normalizeCommits_eq (commits : List GitlabCommit) :
    ∀ counts : GitlabCounts,
    normalizeCommits counts commits =
      (commits.map commitContribution,
       { counts with commits := counts.commits + commits.length }) := by
  induction commits with
  | nil => intro counts; simp [normalizeCommits]
  | cons cm rest ih =>
    intro counts
    simp only [normalizeCommits, ih, List.map_cons, List.length_cons,
      Prod.mk.injEq, GitlabCounts.mk.injEq, true_and, and_true]
    exact ⟨rfl, by omega⟩

/-! Sortedness and stability of the final sort. -/

instance : IsTotal GitlabContribution contribLE :=
  ⟨fun a b => pyStrLe_total a.date b.date⟩

instance : IsTrans GitlabContribution contribLE :=
  ⟨fun _ _ _ => pyStrLe_trans⟩

theorem sorted_sortContribs (l : List GitlabContribution) :
    List.Pairwise contribLE (List.insertionSort contribLE l) :=
  List.sorted_insertionSort contribLE l

theorem perm_sortContribs (l : List GitlabContribution) :
    List.Perm (List.insertionSort contribLE l) l :=
  List.perm_insertionSort contribLE l

/-- Stability of the modelled sort, stated through filters: for every date
key, the subsequence of contributions carrying that exact date string is
untouched by the sort. -/
theorem filter_sortContribs (l : List GitlabContribution) (d : String) :
    (List.insertionSort contribLE l).filter (fun c => c.date == d)
      = l.filter (fun c => c.date == d) := by
  have hmem : ∀ c ∈ l.filter (fun c => c.date == d), c.date = d := by
    intro c hc
    have := List.of_mem_filter hc
    simpa using this
  have hpw : (l.filter (fun c => c.date == d)).Pairwise contribLE := by
    apply List.pairwise_of_forall_mem_list
    intro a ha b hb
    show pyStrLe a.date b.date = true
    rw [hmem a ha, hmem b hb]
    exact pyStrLe_refl d
  have hsub : List.Sublist (l.filter (fun c => c.date == d))
      (List.insertionSort contribLE l) :=
    List.sublist_insertionSort hpw (List.filter_sublist l)
  have hsub2 : List.Sublist (l.filter (fun c => c.date == d))
      ((List.insertionSort contribLE l).filter (fun c => c.date == d)) := by
    have h2 := hsub.filter (fun c => c.date == d)
    simp only [List.filter_filter, Bool.and_self] at h2
    exact h2
  have hperm : List.Perm
      ((List.insertionSort contribLE l).filter (fun c => c.date == d))
      (l.filter (fun c => c.date == d)) :=
    (perm_sortContribs l).filter _
  exact (hsub2.eq_of_length hperm.length_eq.symm).symm

/-! ### Claim C1 -/

/-- Claim C1 (amended): the final sort of `process_contributions` returns a
sequence that is non-decreasing in the `date` field compared as Python
strings (lexicographic by code point — which coincides with timestamp order
only when all dates share one fixed-width format and offset), it is a
permutation of the pre-sort list, and contributions whose date strings are
equal keep their relative input order — the input order being all events
before all commits, instances in configured order (`premerge`). -/
theorem process_contributions_sorted_and_stable
    (counts : GitlabCounts) (events : List GitlabEvent)
    (commits : List GitlabCommit) (out : List GitlabContribution)
    (counts2 : GitlabCounts)
    (h : process_contributions counts events commits = .ok (out, counts2)) :
    List.Pairwise contribLE out ∧
    ∃ pre, premerge events commits = .ok pre ∧
      List.Perm out pre ∧
      ∀ d : String, out.filter (fun c => c.date == d)
        = pre.filter (fun c => c.date == d) := by
  cases hne : normalizeEvents counts events with
  | error msg => simp only [process_contributions, hne] at h; cases h
  | ok v =>
    obtain ⟨ecs, counts1⟩ := v
    simp only [process_contributions, hne, normalizeCommits_eq,
      Except.ok.injEq, Prod.mk.injEq] at h
    obtain ⟨h1, _⟩ := h
    have hpre : premerge events commits
        = .ok (ecs ++ commits.map commitContribution) := by
      unfold premerge
      rw [normalizeEvents_ok_contribs events counts counts1 ecs hne]
      rfl
    subst h1
    exact ⟨sorted_sortContribs _, _, hpre, perm_sortContribs _,
      fun d => filter_sortContribs _ d⟩

/-- Concrete normalized input whose dates mix UTC offsets: one event in `Z`
form, one commit carrying a `+05:00` offset (as GitLab serves for commits). -/
def mixedOffsetEvent : GitlabEvent :=
  { id := 1, project_id := 5, action_name := "created", target_type := "",
    created_at := "2024-06-15T09:00:00Z", «instance» := "gl" }

def mixedOffsetCommit : GitlabCommit :=
  { id := "c1", project_id := 5,
    committed_date := "2024-06-15T10:00:00+05:00", «instance» := "gl" }

def mixedOffsetOut : List GitlabContribution :=
  [{ contribution_type := "project", message := "Created project",
     project_id := 5, date := "2024-06-15T09:00:00Z", «instance» := "gl" },
   { contribution_type := "commit", message := "Committed to project",
     project_id := 5, date := "2024-06-15T10:00:00+05:00", «instance» := "gl" }]

def mixedOffsetCounts : GitlabCounts :=
  { projects_created := 1, merge_requests_opened := 0,
    merge_requests_accepted := 0, issues_opened := 0, commits := 1 }

/-- Claim C1 as frozen is false on the code: the sort compares raw date
strings, so on dates with mixed UTC offsets the merged sequence is not
non-decreasing in the instants the dates denote.  Here the output keeps the
`09:00Z` event (instant 1718442000) before the `10:00+05:00` commit (instant
1718427600 = 05:00 UTC, i.e. four hours earlier). -/
theorem process_contributions_not_timestamp_sorted :
    process_contributions zeroCounts [mixedOffsetEvent] [mixedOffsetCommit]
      = .ok (mixedOffsetOut, mixedOffsetCounts)
    ∧ parseISO "2024-06-15T09:00:00Z" = some 1718442000
    ∧ parseISO "2024-06-15T10:00:00+05:00" = some 1718427600
    ∧ ¬ List.Pairwise (fun a b => tsLeB a.date b.date = true) mixedOffsetOut := by
  refine ⟨rfl, rfl, rfl, ?_⟩
  intro hpw
  have := List.rel_of_pairwise_cons hpw (List.mem_cons_self _ _)
  simp only [mixedOffsetOut] at this
  exact absurd this (by decide)

/-- Witness for the amended C1: a same-dated pair of events and an earlier
commit; the sort is non-decreasing in the date string and keeps the two
`10:00:00Z` events in input order. -/
theorem process_contributions_sorted_and_stable_witness :
    List.Pairwise contribLE
      [{ contribution_type := "commit", message := "Committed to project",
         project_id := 1, date := "2024-01-01T09:00:00Z", «instance» := "gl" },
       { contribution_type := "project", message := "Created project",
         project_id := 1, date := "2024-01-01T10:00:00Z", «instance» := "gl" },
       { contribution_type := "issue", message := "Opened issue",
         project_id := 2, date := "2024-01-01T10:00:00Z", «instance» := "gl" }] ∧
    ∃ pre, premerge
        [{ id := 1, project_id := 1, action_name := "created", target_type := "",
           created_at := "2024-01-01T10:00:00Z", «instance» := "gl" },
         { id := 2, project_id := 2, action_name := "opened", target_type := "Issue",
           created_at := "2024-01-01T10:00:00Z", «instance» := "gl" }]
        [{ id := "a", project_id := 1, committed_date := "2024-01-01T09:00:00Z",
           «instance» := "gl" }] = .ok pre ∧
      List.Perm
        [{ contribution_type := "commit", message := "Committed to project",
           project_id := 1, date := "2024-01-01T09:00:00Z", «instance» := "gl" },
         { contribution_type := "project", message := "Created project",
           project_id := 1, date := "2024-01-01T10:00:00Z", «instance» := "gl" },
         { contribution_type := "issue", message := "Opened issue",
           project_id := 2, date := "2024-01-01T10:00:00Z", «instance» := "gl" }] pre ∧
      ∀ d : String,
        List.filter (fun c => c.date == d)
          [{ contribution_type := "commit", message := "Committed to project",
             project_id := 1, date := "2024-01-01T09:00:00Z", «instance» := "gl" },
           { contribution_type := "project", message := "Created project",
             project_id := 1, date := "2024-01-01T10:00:00Z", «instance» := "gl" },
           { contribution_type := "issue", message := "Opened issue",
             project_id := 2, date := "2024-01-01T10:00:00Z", «instance» := "gl" }]
          = List.filter (fun c => c.date == d) pre :=
  process_contributions_sorted_and_stable zeroCounts _ _ _
    { projects_created := 1, merge_requests_opened := 0,
      merge_requests_accepted := 0, issues_opened := 1, commits := 1 } rfl

/-! ### Claims C3 and C4

Spec-side definitions: the closed rule table of §4.4, written from the spec's
words, to compare with the code's `stepEvent`/`normalizeCommits`. -/

/-- An event inside the spec's closed rule table. -/
def knownEvent (e : GitlabEvent) : Prop :=
  e.action_name = "created"
  ∨ (e.action_name = "opened"
      ∧ (e.target_type = "MergeRequest" ∨ e.target_type = "Issue"))
  ∨ e.action_name = "accepted"

instance : DecidablePred knownEvent := fun e => by
  unfold knownEvent; infer_instance

/-- The spec's event row of the mapping table (value on events outside the
table is irrelevant: it is only consulted under `knownEvent`). -/
def specEventContribution (e : GitlabEvent) : GitlabContribution :=
  if e.action_name = "created" then
    { contribution_type := "project", message := "Created project",
      project_id := e.project_id, date := e.created_at, «instance» := e.«instance» }
  else if e.action_name = "opened" ∧ e.target_type = "MergeRequest" then
    { contribution_type := "merge_request", message := "Opened merge request",
      project_id := e.project_id, date := e.created_at, «instance» := e.«instance» }
  else if e.action_name = "opened" ∧ e.target_type = "Issue" then
    { contribution_type := "issue", message := "Opened issue",
      project_id := e.project_id, date := e.created_at, «instance» := e.«instance» }
  else
    { contribution_type := "merge_request", message := "Accepted merge request",
      project_id := e.project_id, date := e.created_at, «instance» := e.«instance» }

/-- The spec's commit row of the mapping table. -/
def specCommitContribution (cm : GitlabCommit) : GitlabContribution :=
  { contribution_type := "commit", message := "Committed to project",
    project_id := cm.project_id, date := cm.committed_date,
    «instance» := cm.«instance» }

theorem stepEvent_ok_of_known (counts : GitlabCounts) (e : GitlabEvent)
    (h : knownEvent e) :
    ∃ counts1, stepEvent counts e = .ok (specEventContribution e, counts1) := by
  by_cases h1 : e.action_name = "created"
  · exact ⟨{ counts with projects_created := counts.projects_created + 1 },
      by simp [stepEvent, specEventContribution, h1]⟩
  · by_cases h2 : e.action_name = "opened"
    · by_cases h3 : e.target_type = "MergeRequest"
      · exact ⟨{ counts with
            merge_requests_opened := counts.merge_requests_opened + 1 },
          by simp [stepEvent, specEventContribution, h1, h2, h3]⟩
      · by_cases h4 : e.target_type = "Issue"
        · exact ⟨{ counts with issues_opened := counts.issues_opened + 1 },
            by simp [stepEvent, specEventContribution, h1, h2, h3, h4]⟩
        · exfalso
          rcases h with h5 | ⟨-, h6 | h6⟩ | h5
          · exact h1 h5
          · exact h3 h6
          · exact h4 h6
          · rw [h2] at h5
            exact absurd h5 (by decide)
    · by_cases h5 : e.action_name = "accepted"
      · exact ⟨{ counts with
            merge_requests_accepted := counts.merge_requests_accepted + 1 },
          by simp [stepEvent, specEventContribution, h1, h2, h5]⟩
      · exfalso
        rcases h with h6 | ⟨h6, -⟩ | h6
        · exact h1 h6
        · exact h2 h6
        · exact h5 h6

theorem stepEvent_error_of_unknown (counts : GitlabCounts) (e : GitlabEvent)
    (h : ¬ knownEvent e) :
    ∃ msg, stepEvent counts e = .error msg := by
  by_cases h1 : e.action_name = "created"
  · exact absurd (Or.inl h1) h
  · by_cases h2 : e.action_name = "opened"
    · by_cases h3 : e.target_type = "MergeRequest"
      · exact absurd (Or.inr (Or.inl ⟨h2, Or.inl h3⟩)) h
      · by_cases h4 : e.target_type = "Issue"
        · exact absurd (Or.inr (Or.inl ⟨h2, Or.inr h4⟩)) h
        · exact ⟨"Unknown target type: " ++ e.target_type,
            by simp [stepEvent, h1, h2, h3, h4]⟩
    · by_cases h5 : e.action_name = "accepted"
      · exact absurd (Or.inr (Or.inr h5)) h
      · exact ⟨"Unknown action name: " ++ e.action_name,
          by simp [stepEvent, h1, h2, h5]⟩

theorem normalizeEvents_ok_of_known :
    ∀ (events : List GitlabEvent) (counts : GitlabCounts),
    (∀ e ∈ events, knownEvent e) →
    ∃ counts2, normalizeEvents counts events
      = .ok (events.map specEventContribution, counts2) := by
  intro events
  induction events with
  | nil => exact fun counts _ => ⟨counts, rfl⟩
  | cons e rest ih =>
    intro counts hk
    obtain ⟨counts1, hse⟩ :=
      stepEvent_ok_of_known counts e (hk e (List.mem_cons_self _ _))
    obtain ⟨counts2, hre⟩ :=
      ih counts1 (fun b hb => hk b (List.mem_cons_of_mem _ hb))
    exact ⟨counts2, by simp [normalizeEvents, hse, hre]⟩

theorem normalizeEvents_error_of_unknown :
    ∀ (events : List GitlabEvent) (counts : GitlabCounts),
    (∃ e ∈ events, ¬ knownEvent e) →
    ∃ msg, normalizeEvents counts events = .error msg := by
  intro events
  induction events with
  | nil => rintro counts ⟨e, he, -⟩; cases he
  | cons e rest ih =>
    rintro counts ⟨b, hb, hnb⟩
    cases hse : stepEvent counts e with
    | error msg => exact ⟨msg, by simp [normalizeEvents, hse]⟩
    | ok v =>
      obtain ⟨c0, counts1⟩ := v
      rcases List.mem_cons.mp hb with rfl | hbr
      · obtain ⟨msg, hcontra⟩ := stepEvent_error_of_unknown counts b hnb
        rw [hse] at hcontra
        cases hcontra
      · obtain ⟨msg, hre⟩ := ih counts1 ⟨b, hbr, hnb⟩
        exact ⟨msg, by simp [normalizeEvents, hse, hre]⟩

/-- Claim C3: normalization is total over the closed rule table.  Whenever
`process_contributions` succeeds, every event was inside the table and the
output is exactly one contribution per event — with the type and message
pair the spec's table dictates — plus one `commit`/`Committed to project`
contribution per commit; whenever some event falls outside the table, the
function raises instead of silently dropping it. -/
theorem process_contributions_normalization_totality
    (counts : GitlabCounts) (events : List GitlabEvent)
    (commits : List GitlabCommit) :
    match process_contributions counts events commits with
    | .ok (out, _) =>
        (∀ e ∈ events, knownEvent e)
        ∧ List.Perm out
            (events.map specEventContribution ++ commits.map specCommitContribution)
    | .error _ => ∃ e ∈ events, ¬ knownEvent e := by
  by_cases hk : ∀ e ∈ events, knownEvent e
  · obtain ⟨counts2, hne⟩ := normalizeEvents_ok_of_known events counts hk
    simp only [process_contributions, hne, normalizeCommits_eq]
    refine ⟨hk, ?_⟩
    have hcm : commits.map commitContribution = commits.map specCommitContribution :=
      List.map_congr_left fun cm _ => rfl
    rw [← hcm]
    exact perm_sortContribs _
  · have hex : ∃ e ∈ events, ¬ knownEvent e := by
      push_neg at hk
      exact hk
    obtain ⟨msg, hne⟩ := normalizeEvents_error_of_unknown events counts hex
    simp only [process_contributions, hne]
    exact hex

/-- Claim C4: count consistency.  Starting from zeroed counters, whenever
normalization succeeds the flattened counter total equals the length of the
produced contribution list (each rule increments exactly one counter per
contribution). -/
theorem process_contributions_count_consistency
    (events : List GitlabEvent) (commits : List GitlabCommit)
    (out : List GitlabContribution) (counts2 : GitlabCounts)
    (h : process_contributions zeroCounts events commits = .ok (out, counts2)) :
    _get_total_counts counts2 = out.length := by
  cases hne : normalizeEvents zeroCounts events with
  | error msg => simp only [process_contributions, hne] at h; cases h
  | ok v =>
    obtain ⟨ecs, counts1⟩ := v
    simp only [process_contributions, hne, normalizeCommits_eq,
      Except.ok.injEq, Prod.mk.injEq] at h
    obtain ⟨h1, h2⟩ := h
    have he := normalizeEvents_total events zeroCounts counts1 ecs hne
    subst h1
    subst h2
    rw [List.length_insertionSort, List.length_append, List.length_map]
    simp only [_get_total_counts, zeroCounts] at he ⊢
    omega

/-- Witness for C4 at a concrete input: one created-project event, one
opened-issue event and one commit give total 3 = 3 contributions. -/
theorem process_contributions_count_consistency_witness :
    _get_total_counts
      { projects_created := 1, merge_requests_opened := 0,
        merge_requests_accepted := 0, issues_opened := 1, commits := 1 }
    = (([{ contribution_type := "commit", message := "Committed to project",
           project_id := 1, date := "2024-01-01T09:00:00Z", «instance» := "gl" },
         { contribution_type := "project", message := "Created project",
           project_id := 1, date := "2024-01-01T10:00:00Z", «instance» := "gl" },
         { contribution_type := "issue", message := "Opened issue",
           project_id := 2, date := "2024-01-01T10:00:00Z", «instance» := "gl" }] :
        List GitlabContribution).length) :=
  process_contributions_count_consistency
    [{ id := 1, project_id := 1, action_name := "created", target_type := "",
       created_at := "2024-01-01T10:00:00Z", «instance» := "gl" },
     { id := 2, project_id := 2, action_name := "opened", target_type := "Issue",
       created_at := "2024-01-01T10:00:00Z", «instance» := "gl" }]
    [{ id := "a", project_id := 1, committed_date := "2024-01-01T09:00:00Z",
       «instance» := "gl" }]
    _ _ rfl

/-! ### Claim C2 -/

theorem getUserCommitsAux_eq (a : APIModel) :
    ∀ (ps : List GitlabProject) (acc : List GitlabCommit),
    getUserCommitsAux a ps acc =
      (ps.mapM (fun p => _get_commits a p.id p.created_at)).map
        (fun ls => acc ++ ls.flatten) := by
  intro ps
  induction ps with
  | nil =>
    intro acc
    rw [List.mapM_nil]
    simp [getUserCommitsAux, Except.map, pure, Except.pure]
  | cons p rest ih =>
    intro acc
    rw [List.mapM_cons]
    cases hg : _get_commits a p.id p.created_at with
    | error msg =>
      simp only [getUserCommitsAux, hg]
      rfl
    | ok cs =>
      simp only [getUserCommitsAux, hg]
      rw [ih (acc ++ cs)]
      cases hr : rest.mapM (fun p => _get_commits a p.id p.created_at) with
      | error msg => rfl
      | ok ls =>
        simp [Except.map, bind, Except.bind, pure, Except.pure,
          List.append_assoc]

theorem fetchCommitsAux_eq (projects : List GitlabProject) :
    ∀ (as : List APIModel) (acc : List GitlabCommit),
    fetchCommitsAux projects as acc =
      (as.mapM (fun a =>
        Except.map (tagCommits a)
          (get_user_commits_for_projects a
            (projects.filter fun p => p.«instance» == a.«instance»)))).map
        (fun ls => acc ++ ls.flatten) := by
  intro as
  induction as with
  | nil =>
    intro acc
    rw [List.mapM_nil]
    simp [fetchCommitsAux, Except.map, pure, Except.pure]
  | cons a rest ih =>
    intro acc
    rw [List.mapM_cons]
    cases hg : get_user_commits_for_projects a
        (projects.filter fun p => p.«instance» == a.«instance») with
    | error msg =>
      simp only [fetchCommitsAux, hg]
      rfl
    | ok cs =>
      simp only [fetchCommitsAux, hg]
      rw [ih (acc ++ tagCommits a cs)]
      cases hr : rest.mapM (fun a =>
          Except.map (tagCommits a)
            (get_user_commits_for_projects a
              (projects.filter fun p => p.«instance» == a.«instance»))) with
      | error msg => rfl
      | ok ls =>
        simp [Except.map, bind, Except.bind, pure, Except.pure,
          List.append_assoc]

/-- Claim C2 (amended): the pipeline applies no deduplication step.  With no
usable commit cache, the commit collection a run retains is exactly the
concatenation, in configured instance order and per-project fetch order, of
what each remote served (tagged with its instance) — multiplicities included,
so records with equal `id` all survive. -/
theorem run_commit_stage_no_dedupe
    (apis : List APIModel) (projects : List GitlabProject) :
    fetchCommitsStage apis projects [] =
      (apis.mapM (fun a =>
        Except.map (tagCommits a)
          (get_user_commits_for_projects a
            (projects.filter fun p => p.«instance» == a.«instance»)))).map
        List.flatten := by
  have h0 : fetchCommitsStage apis projects [] = fetchCommitsAux projects apis [] := by
    simp [fetchCommitsStage]
  rw [h0, fetchCommitsAux_eq]
  cases apis.mapM (fun a =>
      Except.map (tagCommits a)
        (get_user_commits_for_projects a
          (projects.filter fun p => p.«instance» == a.«instance»))) with
  | error msg => rfl
  | ok ls => simp [Except.map]

/-- One instance serving the same commit hash from two different projects
(for instance a project and its fork inside the same account). -/
def dupApi : APIModel :=
  { «instance» := "gl",
    eventsRemote := [],
    projectsRemote :=
      [{ id := 1, created_at := "2024-01-01T00:00:00Z", «instance» := "",
         forked_from_project := false, path_with_namespace := "me/one" },
       { id := 2, created_at := "2024-01-01T00:00:00Z", «instance» := "",
         forked_from_project := false, path_with_namespace := "me/two" }],
    commitsRemote := fun i _ =>
      .ok [{ id := "abc", project_id := i,
             committed_date := "2024-02-01T00:00:00Z", «instance» := "" }] }

def dupFS : CacheFS :=
  { events := .absent, projects := .absent, commits := .absent }

/-- Claim C2 as frozen is false on the code: no dedup step exists anywhere in
the pipeline, and a run can retain two distinct commit records that share the
same `id` — here the hash `abc` fetched from projects 1 and 2. -/
theorem run_retains_duplicate_commit_ids :
    (run dupFS [dupApi] 0).map (fun st => st.commits.map (fun c => c.id))
      = .ok ["abc", "abc"]
    ∧ ¬ (["abc", "abc"] : List String).Nodup := by
  refine ⟨rfl, ?_⟩
  decide

/-! ### Claim C5 -/

theorem create_commits_aux :
    ∀ (cs : List GitlabContribution) (r0 : RepoModel) (now : Int)
      (res : Option RepoModel),
    create_commits_from_contributions (some r0) now cs = .ok res →
    ∃ recs, res = some { staged := r0.staged, commits := r0.commits ++ recs }
      ∧ List.Forall₂ (fun c k => k.message = mkCommitMessage c
          ∧ parseISO c.date = some k.author_date
          ∧ k.commit_date = now ∧ k.changes = r0.staged) cs recs := by
  intro cs
  induction cs with
  | nil =>
    intro r0 now res h
    cases h
    exact ⟨[], by simp, List.Forall₂.nil⟩
  | cons c rest ih =>
    intro r0 now res h
    cases hp : parseISO c.date with
    | none =>
      simp only [create_commits_from_contributions, create_commit, hp] at h
      cases h
    | some t =>
      simp only [create_commits_from_contributions, create_commit, hp] at h
      obtain ⟨recs, hres, hf⟩ := ih _ now res h
      refine ⟨{ message := mkCommitMessage c, author_date := t,
                commit_date := now, changes := r0.staged } :: recs, ?_, ?_⟩
      · rw [hres]
        simp
      · exact List.Forall₂.cons ⟨rfl, hp, rfl, rfl⟩ hf

/-- Claim C5 (amended): replaying an ordered contribution sequence into the
freshly initialized repository produces exactly one commit per contribution,
in input order, each with no file changes, the message embedding the
contribution's `message`, `project_id` and `instance`, and the *author*
timestamp set to the contribution's `date`; the *committer* timestamp,
however, is the wall clock of the replay (`commit_date` is not passed to
`index.commit`), not the contribution's date. -/
theorem replay_one_commit_per_contribution
    (cs : List GitlabContribution) (now : Int) (res : Option RepoModel)
    (h : create_commits_from_contributions (some create_repo) now cs = .ok res) :
    ∃ r, res = some r ∧
      List.Forall₂ (fun c k => k.message = mkCommitMessage c
        ∧ parseISO c.date = some k.author_date
        ∧ k.commit_date = now ∧ k.changes = []) cs r.commits := by
  obtain ⟨recs, hres, hf⟩ := create_commits_aux cs create_repo now res h
  refine ⟨{ staged := [], commits := recs }, ?_, ?_⟩
  · rw [hres]
    simp [create_repo]
  · simpa [create_repo] using hf

/-- The spec's replay-ordering scenario: a project contribution at `T1` and a
commit contribution at `T2`, `T1 < T2`, both for project 5. -/
def replayDemoContribs : List GitlabContribution :=
  [{ contribution_type := "project", message := "Created project",
     project_id := 5, date := "2024-01-01T00:00:00Z", «instance» := "gl" },
   { contribution_type := "commit", message := "Committed to project",
     project_id := 5, date := "2024-01-02T00:00:00Z", «instance» := "gl" }]

def replayDemoRepo : RepoModel :=
  { staged := [],
    commits :=
      [{ message := mkCommitMessage
           { contribution_type := "project", message := "Created project",
             project_id := 5, date := "2024-01-01T00:00:00Z", «instance» := "gl" },
         author_date := 1704067200, commit_date := 999, changes := [] },
       { message := mkCommitMessage
           { contribution_type := "commit", message := "Committed to project",
             project_id := 5, date := "2024-01-02T00:00:00Z", «instance» := "gl" },
         author_date := 1704153600, commit_date := 999, changes := [] }] }

/-- Witness for the amended C5 at the spec's replay-ordering scenario. -/
theorem replay_one_commit_per_contribution_witness :
    ∃ r, some replayDemoRepo = some r ∧
      List.Forall₂ (fun c k => k.message = mkCommitMessage c
        ∧ parseISO c.date = some k.author_date
        ∧ k.commit_date = 999 ∧ k.changes = []) replayDemoContribs r.commits :=
  replay_one_commit_per_contribution replayDemoContribs 999
    (some replayDemoRepo) rfl

def backdatedContribution : GitlabContribution :=
  { contribution_type := "project", message := "Created project",
    project_id := 5, date := "2024-01-01T00:00:00Z", «instance» := "gl" }

def backdatedRepo : RepoModel :=
  { staged := [],
    commits := [{ message := mkCommitMessage backdatedContribution,
                  author_date := 1704067200, commit_date := 999,
                  changes := [] }] }

/-- Claim C5 as frozen is false on the code: `create_commit` passes only
`author_date` to `Repo.index.commit`, so the committer timestamp of the
produced commit is the wall clock of the replay (here 999), not the
contribution's date (instant 1704067200). -/
theorem replay_commit_date_is_wall_clock :
    create_commits_from_contributions (some create_repo) 999 [backdatedContribution]
      = .ok (some backdatedRepo)
    ∧ backdatedRepo.commits.map (fun k => k.commit_date) = [999]
    ∧ parseISO backdatedContribution.date = some 1704067200
    ∧ (999 : Int) ≠ 1704067200 := ⟨rfl, rfl, rfl, by decide⟩

/-! ### Claim C6 -/

/-- Claim C6 (amended): a cache file that exists but is malformed is *not*
treated as absent — `json.load` raises inside `check_for_existing_exports`
with no surrounding try/except, so the whole run aborts with the decode error
before any fetch; only an absent cache file falls through to the live
fetch. -/
theorem corrupt_cache_aborts_run
    (fs : CacheFS) (apis : List APIModel) (now : Int)
    (h : fs.events = .corrupt ∨ fs.projects = .corrupt ∨ fs.commits = .corrupt) :
    run fs apis now = .error "json.decoder.JSONDecodeError" := by
  rcases h with h | h | h
  · simp [run, check_for_existing_exports, h, loadCacheFile]
  · cases he : fs.events with
    | corrupt => simp [run, check_for_existing_exports, he, loadCacheFile]
    | absent => simp [run, check_for_existing_exports, he, h, loadCacheFile]
    | stored d => simp [run, check_for_existing_exports, he, h, loadCacheFile]
  · cases he : fs.events <;> cases hp : fs.projects <;>
      simp [run, check_for_existing_exports, he, hp, h, loadCacheFile]

def corruptFS : CacheFS :=
  { events := .corrupt, projects := .absent, commits := .absent }

def intactFS : CacheFS :=
  { events := .absent, projects := .absent, commits := .absent }

def quietApi : APIModel :=
  { «instance» := "gl", eventsRemote := [], projectsRemote := [],
    commitsRemote := fun _ _ => .ok [] }

/-- Claim C6 as frozen is false on the code: with a malformed events cache
file the run aborts with the JSON decode error instead of falling through to
a live fetch, while the same run with the file absent completes. -/
theorem run_aborts_on_corrupt_cache :
    run corruptFS [quietApi] 0 = .error "json.decoder.JSONDecodeError"
    ∧ run intactFS [quietApi] 0
      = .ok { events := [], projects := [], commits := [], contributions := [],
              counts := zeroCounts, repo := some create_repo } := ⟨rfl, rfl⟩

/-- Witness for the amended C6: the corrupt-events cache aborts a concrete
run. -/
theorem corrupt_cache_aborts_run_witness :
    run corruptFS [quietApi] 5 = .error "json.decoder.JSONDecodeError" :=
  corrupt_cache_aborts_run corruptFS [quietApi] 5 (Or.inl rfl)

/-! ### Claim C7 -/

theorem filterCommitsByDate_mem :
    ∀ (ca : String) (l res : List GitlabCommit),
    filterCommitsByDate ca l = .ok res →
    ∀ c, c ∈ res ↔ (c ∈ l ∧ ∃ tc tp, parseISO c.committed_date = some tc
      ∧ parseISO ca = some tp ∧ tp < tc) := by
  intro ca l
  induction l with
  | nil =>
    intro res h c
    cases h
    simp
  | cons c0 rest ih =>
    intro res h c
    cases hpc : parseISO c0.committed_date with
    | none => simp only [filterCommitsByDate, hpc] at h; cases h
    | some tc =>
      cases hpa : parseISO ca with
      | none => simp only [filterCommitsByDate, hpc, hpa] at h; cases h
      | some tp =>
        rw [hpa] at ih
        cases hrec : filterCommitsByDate ca rest with
        | error m => simp only [filterCommitsByDate, hpc, hpa, hrec] at h; cases h
        | ok r =>
          simp only [filterCommitsByDate, hpc, hpa, hrec, Except.ok.injEq] at h
          by_cases hlt : tp < tc
          · rw [if_pos hlt] at h
            subst h
            constructor
            · intro hc
              rcases List.mem_cons.mp hc with rfl | hcr
              · exact ⟨List.mem_cons_self _ _, tc, tp, hpc, rfl, hlt⟩
              · obtain ⟨hmem, tc2, tp2, h1, h2, h3⟩ := (ih r hrec c).mp hcr
                exact ⟨List.mem_cons_of_mem _ hmem, tc2, tp2, h1, h2, h3⟩
            · rintro ⟨hmem, tc2, tp2, h1, h2, h3⟩
              rcases List.mem_cons.mp hmem with rfl | hcr
              · exact List.mem_cons_self _ _
              · exact List.mem_cons_of_mem _
                  ((ih r hrec c).mpr ⟨hcr, tc2, tp2, h1, h2, h3⟩)
          · rw [if_neg hlt] at h
            subst h
            rw [ih r hrec c]
            constructor
            · rintro ⟨hcr, tc2, tp2, h1, h2, h3⟩
              exact ⟨List.mem_cons_of_mem _ hcr, tc2, tp2, h1, h2, h3⟩
            · rintro ⟨hmem, tc2, tp2, h1, h2, h3⟩
              rcases List.mem_cons.mp hmem with rfl | hcr
              · rw [hpc] at h1
                cases h1
                cases h2
                exact absurd h3 hlt
              · exact ⟨hcr, tc2, tp2, h1, h2, h3⟩

/-- Claim C7: commit filtering.  When the remote listing succeeds, a fetched
commit is retained by `_get_commits` exactly when its `committed_date`
denotes an instant strictly after the instant of the project's `created_at`;
a commit dated before or exactly at project creation is excluded. -/
theorem commit_filtering
    (a : APIModel) (pid : Nat) (created_at : String)
    (fetched res : List GitlabCommit)
    (hremote : a.commitsRemote pid created_at = .ok fetched)
    (h : _get_commits a pid created_at = .ok res)
    (c : GitlabCommit) :
    c ∈ res ↔ (c ∈ fetched ∧ ∃ tc tp, parseISO c.committed_date = some tc
      ∧ parseISO created_at = some tp ∧ tp < tc) := by
  rw [_get_commits, hremote] at h
  exact filterCommitsByDate_mem created_at fetched res h c

/-- The spec's commit-filtering scenario: project created 2024-01-01; one
commit one second before creation, one the day after. -/
def boundaryDrop : GitlabCommit :=
  { id := "old", project_id := 5,
    committed_date := "2023-12-31T23:59:59Z", «instance» := "gl" }

def boundaryKeep : GitlabCommit :=
  { id := "new", project_id := 5,
    committed_date := "2024-01-02T00:00:00Z", «instance» := "gl" }

def boundaryApi : APIModel :=
  { «instance» := "gl", eventsRemote := [], projectsRemote := [],
    commitsRemote := fun i _ =>
      if i = 5 then .ok [boundaryDrop, boundaryKeep] else .ok [] }

/-- Witness for C7 at the spec's boundary scenario: of the two fetched
commits only the one dated after creation is retained, and it is retained
because its instant exceeds the creation instant. -/
theorem commit_filtering_witness :
    _get_commits boundaryApi 5 "2024-01-01T00:00:00Z" = .ok [boundaryKeep]
    ∧ (boundaryKeep ∈ [boundaryKeep] ↔
        (boundaryKeep ∈ [boundaryDrop, boundaryKeep]
          ∧ ∃ tc tp, parseISO boundaryKeep.committed_date = some tc
              ∧ parseISO "2024-01-01T00:00:00Z" = some tp ∧ tp < tc)) :=
  ⟨rfl, commit_filtering boundaryApi 5 "2024-01-01T00:00:00Z"
    [boundaryDrop, boundaryKeep] [boundaryKeep] rfl rfl boundaryKeep⟩

/-! ### Claim C8 -/

theorem getUserCommitsAux_fork_fields (a : APIModel)
    (f : GitlabProject → Bool) (g : GitlabProject → String) :
    ∀ (ps : List GitlabProject) (acc : List GitlabCommit),
    getUserCommitsAux a
      (ps.map fun p => { p with forked_from_project := f p,
                                path_with_namespace := g p }) acc
    = getUserCommitsAux a ps acc := by
  intro ps
  induction ps with
  | nil => intro acc; rfl
  | cons p rest ih =>
    intro acc
    simp only [List.map_cons, getUserCommitsAux]
    cases hg : _get_commits a p.id p.created_at with
    | error msg => rfl
    | ok cs => exact ih (acc ++ cs)

/-- Claim C8 (amended): there is no fork-skip policy anywhere in the code —
`get_projects` returns the remote's member-project list unfiltered and
`get_user_commits_for_projects` consults only `id` and `created_at` of each
project, so the fork flag and the path are never read and a forked project
with a foreign path contributes its commits exactly like any other
project. -/
theorem fork_fields_not_consulted
    (a : APIModel) (f : GitlabProject → Bool) (g : GitlabProject → String)
    (ps : List GitlabProject) :
    get_user_commits_for_projects a
      (ps.map fun p => { p with forked_from_project := f p,
                                path_with_namespace := g p })
    = get_user_commits_for_projects a ps :=
  getUserCommitsAux_fork_fields a f g ps []

/-- A project flagged as a fork whose path does not contain the identity's
username (`me`), with one commit by the identity in its history. -/
def forkProject : GitlabProject :=
  { id := 7, created_at := "2024-01-01T00:00:00Z", «instance» := "gl",
    forked_from_project := true, path_with_namespace := "other/upstream" }

def forkApi : APIModel :=
  { «instance» := "gl", eventsRemote := [], projectsRemote := [forkProject],
    commitsRemote := fun i _ =>
      if i = 7 then
        .ok [{ id := "f1", project_id := 7,
               committed_date := "2024-02-01T00:00:00Z", «instance» := "" }]
      else .ok [] }

/-- Claim C8 as frozen is false on the code: a project flagged as a fork
whose path does not contain the username still contributes its commits — the
fetch stage retains one commit from it, not zero. -/
theorem forked_project_commits_retained :
    forkProject.forked_from_project = true
    ∧ ¬ List.IsInfix "me".data forkProject.path_with_namespace.data
    ∧ (get_user_commits_for_projects forkApi [forkProject]).map List.length
        = .ok 1 := by
  refine ⟨rfl, by decide, rfl⟩

/-! ### Claim C9 -/

theorem getUserCommitsAux_override (a : APIModel) (p : GitlabProject)
    (e : String) (herr : a.commitsRemote p.id p.created_at = .error e) :
    ∀ (qs : List GitlabProject) (acc : List GitlabCommit),
    getUserCommitsAux a qs acc
      = getUserCommitsAux
          { a with commitsRemote := fun i ca =>
              if i = p.id ∧ ca = p.created_at then .ok []
              else a.commitsRemote i ca } qs acc := by
  intro qs
  induction qs with
  | nil => intro acc; rfl
  | cons q rest ih =>
    intro acc
    have hq : _get_commits a q.id q.created_at
        = _get_commits
            { a with commitsRemote := fun i ca =>
                if i = p.id ∧ ca = p.created_at then .ok []
                else a.commitsRemote i ca } q.id q.created_at := by
      by_cases hcase : q.id = p.id ∧ q.created_at = p.created_at
      · obtain ⟨h1, h2⟩ := hcase
        rw [_get_commits, _get_commits]
        simp only [h1, h2, herr, and_self, if_pos]
        rfl
      · rw [_get_commits, _get_commits]
        simp only [if_neg hcase]
    rw [getUserCommitsAux, getUserCommitsAux, ← hq]
    cases hg : _get_commits a q.id q.created_at with
    | error msg => rfl
    | ok cs => exact ih (acc ++ cs)

/-- Claim C9: per-project failure isolation.  If the remote commit listing
for one project raises a `GitlabError`, `_get_commits` catches it and returns
the empty list for that project, and the whole aggregation behaves exactly as
if the remote had served that project an empty commit list — the error never
propagates and every other project's commits are unaffected. -/
theorem per_project_failure_isolation
    (a : APIModel) (ps : List GitlabProject) (p : GitlabProject) (e : String)
    (herr : a.commitsRemote p.id p.created_at = .error e) :
    _get_commits a p.id p.created_at = .ok []
    ∧ get_user_commits_for_projects a ps
      = get_user_commits_for_projects
          { a with commitsRemote := fun i ca =>
              if i = p.id ∧ ca = p.created_at then .ok []
              else a.commitsRemote i ca } ps := by
  constructor
  · rw [_get_commits, herr]
  · exact getUserCommitsAux_override a p e herr ps []

/-- One instance where project 1 is inaccessible (the remote raises) and
project 2 serves one commit. -/
def failApi : APIModel :=
  { «instance» := "gl", eventsRemote := [], projectsRemote := [],
    commitsRemote := fun i _ =>
      if i = 1 then .error "500 Internal Server Error"
      else .ok [{ id := "k", project_id := 2,
                  committed_date := "2024-02-01T00:00:00Z", «instance» := "" }] }

def failProject : GitlabProject :=
  { id := 1, created_at := "2024-01-01T00:00:00Z", «instance» := "gl",
    forked_from_project := false, path_with_namespace := "me/fail" }

def okProject : GitlabProject :=
  { id := 2, created_at := "2024-01-01T00:00:00Z", «instance» := "gl",
    forked_from_project := false, path_with_namespace := "me/ok" }

/-- Witness for C9: with project 1 failing remotely, the aggregation over
projects 1 and 2 equals the aggregation in which project 1 is served an
empty commit list, and project 1 alone contributes the empty list. -/
theorem per_project_failure_isolation_witness :
    _get_commits failApi failProject.id failProject.created_at = .ok []
    ∧ get_user_commits_for_projects failApi [failProject, okProject]
      = get_user_commits_for_projects
          { failApi with commitsRemote := fun i ca =>
              if i = failProject.id ∧ ca = failProject.created_at then .ok []
              else failApi.commitsRemote i ca } [failProject, okProject] :=
  per_project_failure_isolation failApi [failProject, okProject] failProject
    "500 Internal Server Error" rfl

/-! ### Claim C10 -/

theorem check_for_existing_exports_ok (fs : CacheFS) (st0 st1 : RunState)
    (h : check_for_existing_exports fs st0 = .ok st1) :
    loadCacheFile fs.events st0.events = .ok st1.events
    ∧ loadCacheFile fs.projects st0.projects = .ok st1.projects
    ∧ loadCacheFile fs.commits st0.commits = .ok st1.commits := by
  cases h1 : loadCacheFile fs.events st0.events with
  | error m => simp only [check_for_existing_exports, h1] at h; cases h
  | ok evs =>
    simp only [check_for_existing_exports, h1] at h
    cases h2 : loadCacheFile fs.projects st0.projects with
    | error m => simp only [h2] at h; cases h
    | ok pjs =>
      simp only [h2] at h
      cases h3 : loadCacheFile fs.commits st0.commits with
      | error m => simp only [h3] at h; cases h
      | ok cms =>
        simp only [h3] at h
        cases h
        exact ⟨rfl, rfl, rfl⟩

theorem run_ok_shape (fs : CacheFS) (apis : List APIModel) (now : Int)
    (st : RunState) (h : run fs apis now = .ok st) :
    ∃ st1, check_for_existing_exports fs initState = .ok st1
      ∧ st.events = fetchEventsStage apis st1.events
      ∧ st.projects = fetchProjectsStage apis st1.projects
      ∧ fetchCommitsStage apis st.projects st1.commits = .ok st.commits := by
  cases hck : check_for_existing_exports fs initState with
  | error m => simp only [run, hck] at h; cases h
  | ok st1 =>
    simp only [run, hck] at h
    cases hfc : fetchCommitsStage apis (fetchProjectsStage apis st1.projects)
        st1.commits with
    | error m => simp only [hfc] at h; cases h
    | ok commits =>
      simp only [hfc] at h
      cases hpc : process_contributions st1.counts
          (fetchEventsStage apis st1.events) commits with
      | error m => simp only [hpc] at h; cases h
      | ok pr =>
        obtain ⟨contribs, counts⟩ := pr
        simp only [hpc] at h
        cases hcc : create_commits_from_contributions (some create_repo)
            now contribs with
        | error m => simp only [hcc] at h; cases h
        | ok repo =>
          simp only [hcc, Except.ok.injEq] at h
          subst h
          exact ⟨st1, rfl, rfl, rfl, hfc⟩

/-- Claim C10: an empty cached collection does not short-circuit fetching.
If a cache file for a kind exists but holds an empty array, `run()` still
performs the live remote fetch for that kind (the resulting state carries the
tagged live-fetched records); only a non-empty cached collection suppresses
the fetch and is carried into the state verbatim. -/
theorem empty_cached_collection_still_fetches
    (fs : CacheFS) (apis : List APIModel) (now : Int) (st : RunState)
    (h : run fs apis now = .ok st) :
    (fs.events = .stored [] →
      st.events = (apis.map fun a => tagEvents a a.eventsRemote).flatten)
    ∧ (fs.projects = .stored [] →
      st.projects = (apis.map fun a => tagProjects a (get_projects a)).flatten)
    ∧ (fs.commits = .stored [] →
      fetchCommitsAux st.projects apis [] = .ok st.commits)
    ∧ (∀ l, fs.events = .stored l → l ≠ [] → st.events = l)
    ∧ (∀ l, fs.projects = .stored l → l ≠ [] → st.projects = l)
    ∧ (∀ l, fs.commits = .stored l → l ≠ [] → st.commits = l) := by
  obtain ⟨st1, hck, hev, hpj, hcm⟩ := run_ok_shape fs apis now st h
  obtain ⟨l1, l2, l3⟩ := check_for_existing_exports_ok fs initState st1 hck
  refine ⟨?_, ?_, ?_, ?_, ?_, ?_⟩
  · intro hE
    rw [hE] at l1
    simp only [loadCacheFile, Except.ok.injEq] at l1
    rw [hev, ← l1]
    simp [fetchEventsStage]
  · intro hP
    rw [hP] at l2
    simp only [loadCacheFile, Except.ok.injEq] at l2
    rw [hpj, ← l2]
    simp [fetchProjectsStage]
  · intro hC
    rw [hC] at l3
    simp only [loadCacheFile, Except.ok.injEq] at l3
    rw [← l3] at hcm
    rw [fetchCommitsStage] at hcm
    simpa using hcm
  · intro l hE hne
    rw [hE] at l1
    simp only [loadCacheFile, Except.ok.injEq] at l1
    rw [hev, ← l1]
    simp [fetchEventsStage, List.isEmpty_iff, hne]
  · intro l hP hne
    rw [hP] at l2
    simp only [loadCacheFile, Except.ok.injEq] at l2
    rw [hpj, ← l2]
    simp [fetchProjectsStage, List.isEmpty_iff, hne]
  · intro l hC hne
    rw [hC] at l3
    simp only [loadCacheFile, Except.ok.injEq] at l3
    rw [← l3] at hcm
    rw [fetchCommitsStage] at hcm
    rw [if_neg (by simp [List.isEmpty_iff, hne])] at hcm
    cases hcm
    rfl

def cacheDemoEvent : GitlabEvent :=
  { id := 9, project_id := 3, action_name := "created", target_type := "",
    created_at := "2024-01-01T10:00:00Z", «instance» := "" }

def cacheDemoProject : GitlabProject :=
  { id := 3, created_at := "2024-01-01T00:00:00Z", «instance» := "gl",
    forked_from_project := false, path_with_namespace := "me/proj" }

def cacheDemoApi : APIModel :=
  { «instance» := "gl", eventsRemote := [cacheDemoEvent], projectsRemote := [],
    commitsRemote := fun _ _ => .ok [] }

/-- An events cache holding an empty array next to a non-empty projects
cache. -/
def cacheDemoFS : CacheFS :=
  { events := .stored [], projects := .stored [cacheDemoProject],
    commits := .absent }

def cacheDemoContribution : GitlabContribution :=
  { contribution_type := "project", message := "Created project",
    project_id := 3, date := "2024-01-01T10:00:00Z", «instance» := "gl" }

/-- The state the demo run ends in: live-fetched events, cached projects. -/
def cacheDemoState : RunState :=
  { events := [{ cacheDemoEvent with «instance» := "gl" }],
    projects := [cacheDemoProject],
    commits := [],
    contributions := [cacheDemoContribution],
    counts := { projects_created := 1, merge_requests_opened := 0,
                merge_requests_accepted := 0, issues_opened := 0, commits := 0 },
    repo := some
      { staged := [],
        commits := [{ message := mkCommitMessage cacheDemoContribution,
                      author_date := 1704103200, commit_date := 0,
                      changes := [] }] } }

/-- Witness for C10: an events cache file holding an empty array together
with a non-empty projects cache: the events are live-fetched (and tagged)
while the cached projects are kept verbatim. -/
theorem empty_cached_collection_still_fetches_witness :
    ((cacheDemoFS.events = CacheFile.stored [] →
      cacheDemoState.events
        = (([cacheDemoApi].map fun a => tagEvents a a.eventsRemote)).flatten)
    ∧ (cacheDemoFS.projects = .stored [] →
      cacheDemoState.projects
        = (([cacheDemoApi].map fun a => tagProjects a (get_projects a))).flatten)
    ∧ (cacheDemoFS.commits = .stored [] →
      fetchCommitsAux cacheDemoState.projects [cacheDemoApi] []
        = .ok cacheDemoState.commits)
    ∧ (∀ l, cacheDemoFS.events = .stored l → l ≠ [] → cacheDemoState.events = l)
    ∧ (∀ l, cacheDemoFS.projects = .stored l → l ≠ [] →
        cacheDemoState.projects = l)
    ∧ (∀ l, cacheDemoFS.commits = .stored l → l ≠ [] →
        cacheDemoState.commits = l)) :=
  empty_cached_collection_still_fetches cacheDemoFS [cacheDemoApi] 0
    cacheDemoState rfl

end GitlabExport
